import Mathlib

set_option maxRecDepth 4000

/-!
Verification of the Doc-Signer document pipeline.

This file gives a shallow embedding of the core library code:

* `src/lib/sanitization.ts` — `sanitizeHtml`, `normalizeHtml`, `validateHtml`.
  The DOMPurify library is external; it is modelled by an abstract `Purifier`
  (a function from the input HTML to the serialized sanitized HTML plus the
  list of entries of `DOMPurify.removed`).  Concrete purifier instances used
  for counterexamples are documented where they are defined.
* `src/lib/services/pdf-signer.ts` — the `sign` operation over an abstract
  model of the pdf-lib document object (pages with draw operations and
  metadata fields).
* `src/lib/services/pdf-generator.ts` — `buildHtmlDocument` and `generate`
  over an abstract rendering engine.
* `src/lib/services/document-parser.ts` — `validateFile`.
-/

namespace DocSigner

/-! ## JavaScript string primitives

The sanitizer's normalization phase uses JavaScript regular expressions and
`String.prototype.trim`.  The character class `\s` of JavaScript regexes and
the set trimmed by `trim` are the same set: WhiteSpace ∪ LineTerminator. -/

/-- The JavaScript whitespace set: characters matched by the regex class `\s`
and stripped by `String.prototype.trim`. -/
def isJsWhitespace (c : Char) : Bool :=
  c = ' ' || c = '\t' || c = '\n' || c = '\u000B' || c = '\u000C' || c = '\r' ||
  c = '\u00A0' || c = '\u1680' ||
  ('\u2000' ≤ c && c ≤ '\u200A') ||
  c = '\u2028' || c = '\u2029' || c = '\u202F' || c = '\u205F' ||
  c = '\u3000' || c = '\uFEFF'

/-- A horizontal-whitespace character: the regex class `[ \t]` used by
`normalizeHtml`. -/
def isHorizWs (c : Char) : Bool :=
  c = ' ' || c = '\t'

/-! ## normalizeHtml  (src/lib/sanitization.ts, lines 142-155)

```ts
export function normalizeHtml(html: string): string {
    let normalized = html
    normalized = normalized.replace(/<p>\s*<\/p>/gi, '')
    normalized = normalized.replace(/\r\n/g, '\n')
    normalized = normalized.replace(/[ \t]+/g, ' ')
    return normalized.trim()
}
```

Each global `replace` is a single left-to-right pass over the string:
matches do not overlap, and the text produced by a replacement is not
rescanned. -/

/-- Match the literal `</p>` (case-insensitive) at the head of the list,
returning the remainder on success. -/
def matchClosingP (l : List Char) : Option (List Char) :=
  match l with
  | '<' :: '/' :: c2 :: '>' :: rest2 =>
    if c2 = 'p' || c2 = 'P' then some rest2 else none
  | _ => none

theorem matchClosingP_length {l rest : List Char} (h : matchClosingP l = some rest) :
    rest.length + 4 = l.length := by
  unfold matchClosingP at h
  split at h
  · split at h
    · cases h; simp
    · cases h
  · cases h

/-- Try to match the regex `<p>\s*<\/p>` (case-insensitive) at the head of
the character list.  On success return the remainder of the list after the
match.  `\s*` is greedy, and since no whitespace character can start `</p>`,
greedy matching coincides with taking the maximal whitespace run. -/
def matchEmptyP (l : List Char) : Option (List Char) :=
  match l with
  | '<' :: c :: '>' :: rest =>
    if c = 'p' || c = 'P' then matchClosingP (rest.dropWhile isJsWhitespace) else none
  | _ => none

theorem matchEmptyP_length_lt {l rest : List Char} (h : matchEmptyP l = some rest) :
    rest.length < l.length := by
  unfold matchEmptyP at h
  split at h
  · rename_i c tail
    split at h
    · have h4 := matchClosingP_length h
      have hd : (tail.dropWhile isJsWhitespace).length ≤ tail.length :=
        (List.dropWhile_sublist (l := tail) isJsWhitespace).length_le
      simp only [List.length_cons]
      omega
    · cases h
  · cases h

/-- One global pass of `replace(/<p>\s*<\/p>/gi, '')`: scan left to right,
delete each non-overlapping match, never rescan replaced positions.  The
fuel argument only forces structural recursion; `l.length` fuel always
suffices because every step consumes at least one character. -/
def replaceEmptyParasFuel : Nat → List Char → List Char
  | 0, l => l
  | fuel + 1, l =>
    match matchEmptyP l with
    | some rest => replaceEmptyParasFuel fuel rest
    | none =>
      match l with
      | [] => []
      | c :: tail => c :: replaceEmptyParasFuel fuel tail

/-- `replace(/<p>\s*<\/p>/gi, '')` on a character list. -/
def replaceEmptyParas (l : List Char) : List Char :=
  replaceEmptyParasFuel l.length l

/-- One global pass of `replace(/\r\n/g, '\n')`. -/
def crlfToLf : List Char → List Char
  | '\r' :: '\n' :: rest => '\n' :: crlfToLf rest
  | c :: rest => c :: crlfToLf rest
  | [] => []

/-- One global pass of `replace(/[ \t]+/g, ' ')`: each maximal run of spaces
and tabs becomes a single space.  Written with two-character lookahead so
that the recursion is structural; `collapseSpaces_cons_hw` below shows this
agrees with replacing the maximal horizontal-whitespace run by one space. -/
def collapseSpaces : List Char → List Char
  | [] => []
  | [c] => if isHorizWs c then [' '] else [c]
  | c :: d :: rest =>
    if isHorizWs c && isHorizWs d then collapseSpaces (d :: rest)
    else (if isHorizWs c then ' ' else c) :: collapseSpaces (d :: rest)

/-- Maximal-munch reading of `collapseSpaces`: a horizontal-whitespace head
stands for its whole run, which becomes a single space. -/
theorem collapseSpaces_cons_hw : ∀ (rest : List Char) {c : Char},
    isHorizWs c = true →
      collapseSpaces (c :: rest) = ' ' :: collapseSpaces (rest.dropWhile isHorizWs)
  | [], c, hc => by simp [collapseSpaces, hc]
  | d :: r, c, hc => by
    by_cases hd : isHorizWs d = true
    · have ih := collapseSpaces_cons_hw r hd
      simp [collapseSpaces, hc, hd, ih, List.dropWhile_cons]
    · simp only [Bool.not_eq_true] at hd
      simp [collapseSpaces, hc, hd, List.dropWhile_cons]

/-- JavaScript `String.prototype.trim`: strip leading and trailing
whitespace (the same character set as `\s`). -/
def jsTrim (l : List Char) : List Char :=
  ((l.dropWhile isJsWhitespace).reverse.dropWhile isJsWhitespace).reverse

/-- `normalizeHtml` (src/lib/sanitization.ts lines 142-155): remove empty
paragraphs, canonicalize CRLF line breaks, collapse horizontal whitespace,
and trim. -/
def normalizeHtml (s : String) : String :=
  ⟨jsTrim (collapseSpaces (crlfToLf (replaceEmptyParas s.data)))⟩

/-! ## Structural facts about the whitespace-collapsing phase -/

/-- The output of `collapseSpaces` never contains a tab: every horizontal
whitespace character is emitted as a space. -/
theorem tab_not_mem_collapseSpaces : ∀ l : List Char, '\t' ∉ collapseSpaces l
  | [] => by simp [collapseSpaces]
  | [c] => by
    by_cases hc : isHorizWs c = true
    · simp [collapseSpaces, hc]
    · have hc2 : isHorizWs c = false := by simpa using hc
      have hct : c ≠ '\t' := fun h => by simp [isHorizWs, h] at hc2
      simpa [collapseSpaces, hc2] using (Ne.symm hct)
  | c :: d :: rest => by
    have ih := tab_not_mem_collapseSpaces (d :: rest)
    by_cases hc : isHorizWs c = true
    · by_cases hd : isHorizWs d = true
      · simpa [collapseSpaces, hc, hd] using ih
      · have hd2 : isHorizWs d = false := by simpa using hd
        have hout : collapseSpaces (c :: d :: rest) = ' ' :: collapseSpaces (d :: rest) := by
          simp [collapseSpaces, hc, hd2]
        rw [hout]
        intro hmem
        rcases List.mem_cons.mp hmem with h | h
        · exact absurd h (by decide)
        · exact ih h
    · have hc2 : isHorizWs c = false := by simpa using hc
      have hct : c ≠ '\t' := fun h => by simp [isHorizWs, h] at hc2
      have hout : collapseSpaces (c :: d :: rest) = c :: collapseSpaces (d :: rest) := by
        simp [collapseSpaces, hc2]
      rw [hout]
      intro hmem
      rcases List.mem_cons.mp hmem with h | h
      · exact hct h.symm
      · exact ih h

/-- No two adjacent space characters occur in the list. -/
def noDoubleSpace : List Char → Bool
  | [] => true
  | [_] => true
  | c :: d :: rest => !(c = ' ' && d = ' ') && noDoubleSpace (d :: rest)

/-- If the head of the list is not horizontal whitespace, `collapseSpaces`
keeps it. -/
theorem collapseSpaces_cons_not_hw {d : Char} (hd : ¬ isHorizWs d = true)
    (rest : List Char) : collapseSpaces (d :: rest) = d :: collapseSpaces rest := by
  cases rest with
  | nil => simp [collapseSpaces, hd]
  | cons e r => simp [collapseSpaces, hd]

/-- Prepending a non-space character never creates a double space. -/
theorem noDoubleSpace_cons_of_ne {c : Char} (hc : ¬ c = ' ') (l : List Char) :
    noDoubleSpace (c :: l) = noDoubleSpace l := by
  cases l with
  | nil => simp [noDoubleSpace]
  | cons x xs => simp [noDoubleSpace, hc]

/-- The output of `collapseSpaces` never contains two adjacent spaces:
whitespace runs are collapsed to a single space. -/
theorem noDoubleSpace_collapseSpaces : ∀ l : List Char,
    noDoubleSpace (collapseSpaces l) = true
  | [] => by simp [collapseSpaces, noDoubleSpace]
  | [c] => by
    by_cases hc : isHorizWs c = true <;> simp [collapseSpaces, hc, noDoubleSpace]
  | c :: d :: rest => by
    have ih := noDoubleSpace_collapseSpaces (d :: rest)
    by_cases hc : isHorizWs c = true
    · by_cases hd : isHorizWs d = true
      · simpa [collapseSpaces, hc, hd] using ih
      · have hd2 : isHorizWs d = false := by simpa using hd
        have hkeep := collapseSpaces_cons_not_hw hd rest
        have hdsp : d ≠ ' ' := fun h => by simp [isHorizWs, h] at hd2
        have hout : collapseSpaces (c :: d :: rest) = ' ' :: d :: collapseSpaces rest := by
          simp [collapseSpaces, hc, hd2, hkeep]
        rw [hout]
        have hstep : noDoubleSpace (' ' :: d :: collapseSpaces rest)
            = noDoubleSpace (d :: collapseSpaces rest) := by
          simp [noDoubleSpace, hdsp]
        rw [hstep, ← hkeep]
        exact ih
    · have hc2 : isHorizWs c = false := by simpa using hc
      have hcsp : ¬ c = ' ' := fun h => by simp [isHorizWs, h] at hc2
      have hout : collapseSpaces (c :: d :: rest) = c :: collapseSpaces (d :: rest) := by
        simp [collapseSpaces, hc2]
      rw [hout, noDoubleSpace_cons_of_ne hcsp]
      exact ih

/-- Trimming yields a contiguous segment of the original list. -/
theorem jsTrim_segment (l : List Char) : jsTrim l <:+: l := by
  obtain ⟨s, hs⟩ := List.dropWhile_suffix (l := l) isJsWhitespace
  obtain ⟨u, hu⟩ :=
    List.dropWhile_suffix (l := (l.dropWhile isJsWhitespace).reverse) isJsWhitespace
  refine ⟨s, u.reverse, ?_⟩
  have ha : l.dropWhile isJsWhitespace = jsTrim l ++ u.reverse := by
    have := congrArg List.reverse hu
    simpa [jsTrim] using this.symm
  have hb : s ++ (jsTrim l ++ u.reverse) = l := by rw [← ha, hs]
  rw [List.append_assoc]
  exact hb

/-- `noDoubleSpace` says exactly that a double space is not a contiguous
substring. -/
theorem noDoubleSpace_iff : ∀ l : List Char,
    noDoubleSpace l = true ↔ ¬ ([' ', ' '] <:+: l)
  | [] => by
    constructor
    · intro _ hinf
      have := hinf.sublist.length_le
      simp at this
    · intro _; rfl
  | [c] => by
    constructor
    · intro _ hinf
      have := hinf.sublist.length_le
      simp at this
    · intro _; rfl
  | c :: d :: rest => by
    have ih := noDoubleSpace_iff (d :: rest)
    constructor
    · intro h hinf
      simp only [noDoubleSpace, Bool.and_eq_true, Bool.not_eq_true',
        Bool.and_eq_false_iff, decide_eq_false_iff_not] at h
      rcases List.infix_cons_iff.mp hinf with hpre | htail
      · rcases List.cons_prefix_cons.mp hpre with ⟨hc, hrest⟩
        rcases List.cons_prefix_cons.mp hrest with ⟨hd, _⟩
        rcases h.1 with h1 | h1
        · exact h1 hc.symm
        · exact h1 hd.symm
      · exact (ih.mp h.2) htail
    · intro h
      simp only [noDoubleSpace, Bool.and_eq_true, Bool.not_eq_true',
        Bool.and_eq_false_iff, decide_eq_false_iff_not]
      constructor
      · by_cases hc : c = ' '
        · by_cases hd : d = ' '
          · exfalso
            exact h (List.infix_cons_iff.mpr (Or.inl (by
              rw [hc, hd]
              exact List.cons_prefix_cons.mpr ⟨rfl,
                List.cons_prefix_cons.mpr ⟨rfl, List.nil_prefix⟩⟩)))
          · exact Or.inr fun he => hd he
        · exact Or.inl fun he => hc he
      · exact ih.mpr fun htail => h (List.infix_cons_iff.mpr (Or.inr htail))

/-- The combined normalization invariant: the output of `normalizeHtml`
contains no tab character and no two adjacent spaces — every run of
horizontal whitespace has been collapsed to at most a single space. -/
theorem normalizeHtml_hws_collapsed (s : String) :
    '\t' ∉ (normalizeHtml s).data ∧ ¬ ([' ', ' '] <:+: (normalizeHtml s).data) := by
  unfold normalizeHtml
  constructor
  · intro hmem
    have hsub : (jsTrim (collapseSpaces (crlfToLf (replaceEmptyParas s.data)))) ⊆
        collapseSpaces (crlfToLf (replaceEmptyParas s.data)) :=
      (jsTrim_segment _).sublist.subset
    exact tab_not_mem_collapseSpaces _ (hsub hmem)
  · intro hinf
    have h2 := hinf.trans (jsTrim_segment _)
    exact (noDoubleSpace_iff _).mp (noDoubleSpace_collapseSpaces _) h2

/-! ## sanitizeHtml and validateHtml  (src/lib/sanitization.ts, lines 88-176)

`sanitizeHtml` delegates the structural filtering to the external DOMPurify
library (`purify.sanitize` with `ALLOWED_TAGS`/`ALLOWED_ATTR`,
`KEEP_CONTENT: true`), then inspects `purify.removed` and finally applies
`normalizeHtml`.  DOMPurify is modelled abstractly by a `Purifier`: a
function from the input HTML to the serialized sanitized HTML together with
the entries of the `DOMPurify.removed` array.

DOMPurify pushes two shapes of entries onto `removed`:
* a removed element is recorded as `{ element: node }` (no `attribute` key);
* a removed attribute is recorded as `{ attribute: attr, from: node }` — it
  carries a `from` key and NO `element` key.
`RemovedItem` captures both shapes with two optional fields. -/

/-- One entry of the `DOMPurify.removed` array.  `element` holds the tag
name of a removed element when the entry has an `element` key; `attribute`
holds the attribute name when the entry has an `attribute` key (the field
is called `attr` because `attribute` is reserved in Lean). -/
structure RemovedItem where
  element : Option String := none
  attr : Option String := none
deriving DecidableEq, Repr

/-- Abstract model of the configured DOMPurify instance: maps input HTML to
the serialized sanitized output and the `removed` entries of that run. -/
structure Purifier where
  run : String → String × List RemovedItem

/-- The wrapper's `log` message for one removed entry, or `none` when the
wrapper's `if (item.element)` test skips the entry.  Mirrors lines 112-124
of src/lib/sanitization.ts: entries without an `element` key are never
logged. -/
def removedMessage (item : RemovedItem) : Option String :=
  match item.element with
  | none => none
  | some tag =>
    match item.attr with
    | none => some ("Stripped tag: <" ++ tag.toLower ++ ">")
    | some attr =>
      some ("Stripped attribute: " ++ attr ++ " from <" ++ tag.toLower ++ ">")

/-- The sequence of messages the sanitizer reports (via `onSanitization` or
`console.warn`) when run on `html`. -/
def sanitizeMessages (P : Purifier) (html : String) : List String :=
  ((P.run html).2).filterMap removedMessage

/-- Options of `sanitizeHtml`; the `onSanitization` callback is modelled by
returning the emitted message list alongside the output. -/
structure SanitizeOptions where
  strict : Bool := false
deriving DecidableEq, Repr

/-- `sanitizeHtml` (src/lib/sanitization.ts lines 88-134): run the purifier,
log each removed entry that carries an element, throw when `strict` and
something was logged (`strippedContent`), otherwise return the normalized
output.  The `Except.error` value is the thrown `Error`'s message; the
`Except.ok` value carries the returned string and the emitted messages. -/
def sanitizeHtml (P : Purifier) (html : String) (opts : SanitizeOptions) :
    Except String (String × List String) :=
  let sanitized := (P.run html).1
  let msgs := sanitizeMessages P html
  if opts.strict && !msgs.isEmpty then
    .error "Document failed strict validation: content was stripped."
  else
    .ok (normalizeHtml sanitized, msgs)

/-- A non-strict call never throws. -/
theorem sanitizeHtml_nonstrict_ok (P : Purifier) (html : String) :
    sanitizeHtml P html {} = .ok (normalizeHtml (P.run html).1, sanitizeMessages P html) := by
  simp [sanitizeHtml, SanitizeOptions.strict]

/-- The string returned by a non-strict `sanitizeHtml` call (which never
throws: see `sanitizeHtml_nonstrict_ok`). -/
def sanitizeOutput (P : Purifier) (html : String) : String :=
  match sanitizeHtml P html {} with
  | .ok (s, _) => s
  | .error _ => ""

/-- A non-strict call returns the normalized purifier output. -/
theorem sanitizeOutput_eq (P : Purifier) (html : String) :
    sanitizeOutput P html = normalizeHtml (P.run html).1 := by
  unfold sanitizeOutput
  rw [sanitizeHtml_nonstrict_ok]

/-- Result record of `validateHtml`. -/
structure ValidateResult where
  valid : Bool
  violations : List String
deriving DecidableEq, Repr

/-- `validateHtml` (src/lib/sanitization.ts lines 161-176): dry-run the
sanitizer in non-strict mode with a collecting callback and report
`valid = (violations.length === 0)`. -/
def validateHtml (P : Purifier) (html : String) : ValidateResult :=
  let violations :=
    match sanitizeHtml P html {} with
    | .ok (_, msgs) => msgs
    | .error _ => []
  { valid := violations.length == 0, violations := violations }

/-! ## Concrete purifier instances used in claim theorems -/

/-- The identity purifier: nothing is removed.  Models a DOMPurify run on
input that is already serialized-canonical and contains only allowed
markup. -/
def idPurifier : Purifier where
  run s := (s, [])

/-- Model of the configured DOMPurify run on
`<p onclick="alert(1)">Click</p>`: the `onclick` attribute is not in
`ALLOWED_ATTR`, so DOMPurify removes it via its `_removeAttribute` helper,
which pushes `{ attribute: attr, from: node }` onto `DOMPurify.removed` —
an entry carrying an `attribute` key and NO `element` key — and the
serialized output is `<p>Click</p>`. -/
def onclickPurifier : Purifier where
  run s :=
    if s = "<p onclick=\"alert(1)\">Click</p>" then
      ("<p>Click</p>", [{ attr := some "onclick" }])
    else (s, [])

/-- Model of the configured DOMPurify run on the two strings of the
idempotence counterexample.  All markup involved is allowed, so nothing is
removed, but serialization is not the identity:
* on `<p>a&#13;b</p>` the character reference `&#13;` decodes to a carriage
  return in the text node (the HTML input preprocessor only rewrites raw CR
  bytes, not references), and the fragment serializer emits that CR
  literally, giving `<p>a\rb</p>`;
* on `<p>a\rb</p>` the raw CR is rewritten to LF by the HTML input stream
  preprocessor before tokenization, giving `<p>a\nb</p>`. -/
def crPurifier : Purifier where
  run s :=
    if s = "<p>a&#13;b</p>" then ("<p>a\rb</p>", [])
    else if s = "<p>a\rb</p>" then ("<p>a\nb</p>", [])
    else (s, [])

/-! ## Claim C1 -/

/-- C1: the claim states that `sanitizeHtml` fails (in strict mode) as soon
as at least one disallowed tag OR ATTRIBUTE was removed.  The code only
sets `strippedContent` inside `if (item.element)`, and DOMPurify records
attribute removals without an `element` key, so a strict-mode call whose
only violations are removed attributes returns normally: on
`<p onclick="alert(1)">Click</p>` with `strict: true` the removed list is
non-empty (the stripped `onclick`), yet the call succeeds and even reports
no violation message. -/
theorem c1_strict_ignores_attribute_removals :
    (onclickPurifier.run "<p onclick=\"alert(1)\">Click</p>").2 ≠ [] ∧
    sanitizeHtml onclickPurifier "<p onclick=\"alert(1)\">Click</p>" { strict := true } =
      .ok ("<p>Click</p>", []) := by
  constructor
  · decide
  · rfl

/-! ## Claim C2 -/

/-- C2 counterexample: sanitization is not idempotent.  For
`<p>a&#13;b</p>` the first pass outputs `<p>a\rb</p>` (a literal carriage
return), and the second pass re-parses that CR as LF, outputting
`<p>a\nb</p>`. -/
theorem c2_idempotence_counterexample :
    sanitizeOutput crPurifier (sanitizeOutput crPurifier "<p>a&#13;b</p>") ≠
      sanitizeOutput crPurifier "<p>a&#13;b</p>" := by decide

/-- C2 amended: sanitize∘sanitize agrees with sanitize at every input whose
first sanitized output is (a) returned unchanged with nothing removed when
purified again and (b) a fixed point of `normalizeHtml`; and on content with
no disallowed markup (nothing removed) sanitization is exactly
whitespace normalization. -/
theorem c2_amended_idempotence (P : Purifier) (h : String)
    (hstab : P.run (sanitizeOutput P h) = (sanitizeOutput P h, []))
    (hnorm : normalizeHtml (sanitizeOutput P h) = sanitizeOutput P h) :
    sanitizeOutput P (sanitizeOutput P h) = sanitizeOutput P h ∧
    (P.run h = (h, []) → sanitizeOutput P h = normalizeHtml h) := by
  constructor
  · rw [sanitizeOutput_eq P (sanitizeOutput P h), hstab]
    exact hnorm
  · intro hclean
    rw [sanitizeOutput_eq P h, hclean]

/-- Witness for `c2_amended_idempotence` at the identity purifier and a
clean input. -/
theorem c2_amended_idempotence_witness :
    sanitizeOutput idPurifier (sanitizeOutput idPurifier "<p>Hello</p>") =
      sanitizeOutput idPurifier "<p>Hello</p>" ∧
    (idPurifier.run "<p>Hello</p>" = ("<p>Hello</p>", []) →
      sanitizeOutput idPurifier "<p>Hello</p>" = normalizeHtml "<p>Hello</p>") :=
  c2_amended_idempotence idPurifier "<p>Hello</p>" (by decide) (by decide)

/-! ## Claim C3 -/

/-- C3 counterexample: the claim states that every paragraph whose rendered
text content is empty or whitespace-only is removed, including paragraphs
that carry attributes.  The code's regex `/<p>\s*<\/p>/gi` only matches a
literal attribute-less `<p>`, so `<p class="x"> </p>` survives unchanged. -/
theorem c3_empty_para_with_attr_kept :
    normalizeHtml "<p class=\"x\"> </p>" = "<p class=\"x\"> </p>" ∧
    normalizeHtml "<p class=\"x\"> </p>" ≠ "" := by
  constructor
  · decide
  · decide

/-- C3 amended: after structural filtering the normalization phase (1)
leaves no tab and no two adjacent spaces in its output — every run of
spaces and tabs is collapsed to a single space, (2) rewrites CRLF pairs to
LF in one pass, trims the ends, and (3) removes exactly the paragraphs
written as a literal attribute-less `<p>` followed by only whitespace and
`</p>`; paragraphs carrying attributes or containing only non-text children
are kept. -/
theorem c3_amended_normalization :
    (∀ s : String,
      '\t' ∉ (normalizeHtml s).data ∧ ¬ ([' ', ' '] <:+: (normalizeHtml s).data)) ∧
    normalizeHtml "<p>  Hello   World  </p>" = "<p> Hello World </p>" ∧
    normalizeHtml "<p></p><p>  </p>" = "" ∧
    normalizeHtml "<p> \t\n</p>" = "" ∧
    normalizeHtml "a\r\nb" = "a\nb" ∧
    normalizeHtml "<p class=\"a\"> </p>" = "<p class=\"a\"> </p>" ∧
    normalizeHtml "<p><br></p>" = "<p><br></p>" :=
  ⟨normalizeHtml_hws_collapsed, by decide, by decide, by decide, by decide,
    by decide, by decide⟩

/-! ## Claim C4 -/

/-- C4: `validateHtml` is a dry run of the sanitizer in non-strict mode:
`valid` is true exactly when the sanitizer reports no violation, and
`violations` is exactly the ordered message sequence the sanitizer reports.
(The embedding is a pure function, so the input is not mutated.) -/
theorem c4_validateHtml_dry_run (P : Purifier) (h : String) :
    ((validateHtml P h).valid = true ↔ sanitizeMessages P h = []) ∧
    (validateHtml P h).violations = sanitizeMessages P h := by
  unfold validateHtml
  rw [sanitizeHtml_nonstrict_ok]
  constructor
  · simp
  · rfl

/-! ## PDF signer  (src/lib/services/pdf-signer.ts)

The pdf-lib library is modelled abstractly: a `PdfDoc` is the in-memory
document object (ordered pages, each with a media-box size and the list of
images drawn onto it, plus the metadata fields the signer writes).  A
`PdfEnv` packages the external operations: `load` (`PDFDocument.load`,
`none` when the bytes cannot be parsed and the promise rejects), `embedPng`
(`Buffer.from(base64, 'base64')` followed by `pdfDoc.embedPng`; `none` when
embedding throws on a corrupt payload), `save` (`pdfDoc.save`) and `now`
(`new Date()`).  Any `none` models an exception reaching the `catch` block
of `sign`, which returns `{ success: false, error }`. -/

structure SignaturePosition where
  page : Int
  x : Int
  y : Int
  width : Int
  height : Int
deriving DecidableEq, Repr

structure SignatureData where
  imageBase64 : String
  position : SignaturePosition
  createdAt : Int
deriving DecidableEq, Repr

/-- One `page.drawImage(embeddedImage, { x, y, width, height })` call. -/
structure DrawOp where
  image : String
  x : Int
  y : Int
  w : Int
  h : Int
deriving DecidableEq, Repr

/-- One page of the loaded document: its media-box size (`page.getSize()`)
and the images drawn on it. -/
structure Page where
  width : Int
  height : Int
  ops : List DrawOp
deriving DecidableEq, Repr

/-- The in-memory pdf-lib document object. -/
structure PdfDoc where
  pages : List Page
  title : Option String := none
  author : Option String := none
  producer : Option String := none
  modDate : Option Nat := none
deriving DecidableEq, Repr

/-- The external pdf-lib operations used by `sign`. -/
structure PdfEnv where
  load : List Nat → Option PdfDoc
  embedPng : String → Option String
  save : PdfDoc → List Nat
  now : Nat

/-- The data-URL marker stripped by
`imageBase64.replace(/^data:image\/png;base64,/, '')`. -/
def dataUrlMarker : String := "data:image/png;base64,"

/-- Strip the leading `data:image/png;base64,` if present (the regex is
anchored, so at most one leading occurrence is removed). -/
def stripDataUrl (s : String) : String :=
  if dataUrlMarker.isPrefixOf s then s.drop dataUrlMarker.length else s

def defaultPage : Page := { width := 0, height := 0, ops := [] }

/-- Append a draw operation to page `i` (0-indexed, known in bounds at every
call site). -/
def drawOnPage (doc : PdfDoc) (i : Nat) (op : DrawOp) : PdfDoc :=
  let pg := doc.pages.getD i defaultPage
  { doc with pages := doc.pages.set i { pg with ops := pg.ops ++ [op] } }

/-- The bounds test of the signature loop:
`pageIndex < 0 || pageIndex >= pages.length` for
`pageIndex = position.page - 1`, phrased on the page count. -/
def sigOutOfBounds (pageNum : Int) (numPages : Nat) : Bool :=
  pageNum - 1 < 0 || pageNum - 1 ≥ (numPages : Int)

/-- The `console.warn` message for a skipped placement. -/
def skippedPageWarning (pageNum : Int) : String :=
  "Attempted to sign page " ++ toString pageNum ++ " which does not exist."

/-- Phase 1 of `sign` (lines 72-95): process the explicit signature
placements in order.  An out-of-bounds page is skipped with a warning
(collected in the returned list); an in-bounds placement embeds its PNG
(aborting the whole operation if embedding throws) and draws it at the
given coordinates. -/
def processSignatures (env : PdfEnv) : PdfDoc → List SignatureData → Option (PdfDoc × List String)
  | doc, [] => some (doc, [])
  | doc, sig :: rest =>
    if sigOutOfBounds sig.position.page doc.pages.length then
      match processSignatures env doc rest with
      | none => none
      | some (d, ws) => some (d, skippedPageWarning sig.position.page :: ws)
    else
      match env.embedPng (stripDataUrl sig.imageBase64) with
      | none => none
      | some img =>
        processSignatures env
          (drawOnPage doc (sig.position.page - 1).toNat
            { image := img
              x := sig.position.x
              y := sig.position.y
              w := sig.position.width
              h := sig.position.height }) rest

/-- Phase 2 of `sign` (lines 98-117): process the full-page overlays.  An
out-of-bounds page is skipped silently (`continue` with no warning); an
in-bounds overlay embeds its PNG and draws it over the full media box
`(0, 0, width, height)` of the page. -/
def processOverlays (env : PdfEnv) : PdfDoc → List (Nat × String) → Option PdfDoc
  | doc, [] => some doc
  | doc, (pageNum, imageBase64) :: rest =>
    if sigOutOfBounds (pageNum : Int) doc.pages.length then
      processOverlays env doc rest
    else
      let pg := doc.pages.getD ((pageNum : Int) - 1).toNat defaultPage
      match env.embedPng (stripDataUrl imageBase64) with
      | none => none
      | some img =>
        processOverlays env
          (drawOnPage doc ((pageNum : Int) - 1).toNat
            { image := img, x := 0, y := 0, w := pg.width, h := pg.height }) rest

/-- Lines 120-123: mark the document as signed. -/
def setSignedMetadata (env : PdfEnv) (doc : PdfDoc) : PdfDoc :=
  { doc with
    title := some "Signed Document"
    author := some "SignFlow User"
    producer := some "SignFlow PDF Signer"
    modDate := some env.now }

/-- The whole `sign` flow up to `pdfDoc.save()`: load, both phases,
metadata.  `none` models any thrown error reaching the `catch` block; the
second component collects the `console.warn` messages of phase 1. -/
def signRun (env : PdfEnv) (pdfBytes : List Nat) (signatures : List SignatureData)
    (overlays : List (Nat × String)) : Option (PdfDoc × List String) :=
  match env.load pdfBytes with
  | none => none
  | some doc =>
    match processSignatures env doc signatures with
    | none => none
    | some (d1, warns) =>
      match processOverlays env d1 overlays with
      | none => none
      | some d2 => some (setSignedMetadata env d2, warns)

/-- Result of `sign`: `success` carries the serialized bytes, `failure`
models `{ success: false, error }` (the error message is abstracted). -/
inductive SignPdfResult where
  | success (pdfBuffer : List Nat)
  | failure
deriving DecidableEq, Repr

/-- `sign` (src/lib/services/pdf-signer.ts lines 61-138). -/
def sign (env : PdfEnv) (pdfBytes : List Nat) (signatures : List SignatureData)
    (overlays : List (Nat × String)) : SignPdfResult :=
  match signRun env pdfBytes signatures overlays with
  | some (d, _) => .success (env.save d)
  | none => .failure

/-! ## Signer lemmas -/

theorem drawOnPage_length (doc : PdfDoc) (i : Nat) (op : DrawOp) :
    (drawOnPage doc i op).pages.length = doc.pages.length := by
  simp [drawOnPage]

theorem drawOnPage_meta (doc : PdfDoc) (i : Nat) (op : DrawOp) :
    (drawOnPage doc i op).title = doc.title ∧
    (drawOnPage doc i op).author = doc.author ∧
    (drawOnPage doc i op).producer = doc.producer ∧
    (drawOnPage doc i op).modDate = doc.modDate := by
  simp [drawOnPage]

theorem processSignatures_length (env : PdfEnv) : ∀ (sigs : List SignatureData)
    (doc d : PdfDoc) (w : List String),
    processSignatures env doc sigs = some (d, w) → d.pages.length = doc.pages.length
  | [], doc, d, w => by
    intro h
    simp [processSignatures] at h
    rw [← h.1]
  | sig :: rest, doc, d, w => by
    intro h
    unfold processSignatures at h
    split at h
    · cases hrec : processSignatures env doc rest with
      | none => rw [hrec] at h; cases h
      | some dw =>
        obtain ⟨d1, ws⟩ := dw
        rw [hrec] at h
        simp at h
        rw [← h.1]
        exact processSignatures_length env rest doc d1 ws hrec
    · cases hemb : env.embedPng (stripDataUrl sig.imageBase64) with
      | none => rw [hemb] at h; cases h
      | some img =>
        rw [hemb] at h
        have := processSignatures_length env rest _ d w h
        rw [this, drawOnPage_length]

theorem processOverlays_length (env : PdfEnv) : ∀ (ovs : List (Nat × String))
    (doc d : PdfDoc),
    processOverlays env doc ovs = some d → d.pages.length = doc.pages.length
  | [], doc, d => by
    intro h
    simp [processOverlays] at h
    rw [← h]
  | (p, im) :: rest, doc, d => by
    intro h
    unfold processOverlays at h
    split at h
    · exact processOverlays_length env rest doc d h
    · cases hemb : env.embedPng (stripDataUrl im) with
      | none => rw [hemb] at h; cases h
      | some img =>
        rw [hemb] at h
        have := processOverlays_length env rest _ d h
        rw [this, drawOnPage_length]

theorem processSignatures_skip_all (env : PdfEnv) : ∀ (sigs : List SignatureData)
    (doc : PdfDoc),
    (∀ sig ∈ sigs, sigOutOfBounds sig.position.page doc.pages.length = true) →
    processSignatures env doc sigs =
      some (doc, sigs.map fun sig => skippedPageWarning sig.position.page)
  | [], doc => by
    intro _
    simp [processSignatures]
  | sig :: rest, doc => by
    intro hall
    have hb := hall sig (List.mem_cons_self sig rest)
    have ih := processSignatures_skip_all env rest doc
      (fun s hs => hall s (List.mem_cons_of_mem _ hs))
    unfold processSignatures
    rw [if_pos hb, ih]
    simp

theorem processOverlays_skip_all (env : PdfEnv) : ∀ (ovs : List (Nat × String))
    (doc : PdfDoc),
    (∀ ov ∈ ovs, sigOutOfBounds (ov.1 : Int) doc.pages.length = true) →
    processOverlays env doc ovs = some doc
  | [], doc => by
    intro _
    simp [processOverlays]
  | (p, im) :: rest, doc => by
    intro hall
    have hb := hall (p, im) (List.mem_cons_self _ rest)
    unfold processOverlays
    rw [if_pos hb]
    exact processOverlays_skip_all env rest doc
      (fun o ho => hall o (List.mem_cons_of_mem _ ho))

theorem processSignatures_none_iff (env : PdfEnv) : ∀ (sigs : List SignatureData)
    (doc : PdfDoc),
    (processSignatures env doc sigs = none ↔
      ∃ sig ∈ sigs, sigOutOfBounds sig.position.page doc.pages.length = false ∧
        env.embedPng (stripDataUrl sig.imageBase64) = none)
  | [], doc => by simp [processSignatures]
  | sig :: rest, doc => by
    have ih := processSignatures_none_iff env rest doc
    unfold processSignatures
    by_cases hb : sigOutOfBounds sig.position.page doc.pages.length = true
    · rw [if_pos hb]
      cases hrec : processSignatures env doc rest with
      | none =>
        simp only [hrec]
        constructor
        · intro _
          obtain ⟨s, hmem, h1, h2⟩ := ih.mp hrec
          exact ⟨s, List.mem_cons_of_mem _ hmem, h1, h2⟩
        · intro _
          trivial
      | some dw =>
        obtain ⟨d1, ws⟩ := dw
        simp only [hrec]
        constructor
        · intro h
          cases h
        · rintro ⟨s, hmem, h1, h2⟩
          rcases List.mem_cons.mp hmem with rfl | hmem2
          · rw [hb] at h1
            cases h1
          · exact absurd (ih.mpr ⟨s, hmem2, h1, h2⟩) (by rw [hrec]; simp)
    · have hb2 : sigOutOfBounds sig.position.page doc.pages.length = false := by
        simpa using hb
      rw [if_neg hb]
      cases hemb : env.embedPng (stripDataUrl sig.imageBase64) with
      | none =>
        simp only [hemb]
        constructor
        · intro _
          exact ⟨sig, List.mem_cons_self _ _, hb2, hemb⟩
        · intro _
          trivial
      | some img =>
        simp only [hemb]
        have ihd := processSignatures_none_iff env rest
          (drawOnPage doc (sig.position.page - 1).toNat
            { image := img
              x := sig.position.x
              y := sig.position.y
              w := sig.position.width
              h := sig.position.height })
        rw [ihd]
        simp only [drawOnPage_length]
        constructor
        · rintro ⟨s, hmem, h1, h2⟩
          exact ⟨s, List.mem_cons_of_mem _ hmem, h1, h2⟩
        · rintro ⟨s, hmem, h1, h2⟩
          rcases List.mem_cons.mp hmem with rfl | hmem2
          · rw [hemb] at h2
            cases h2
          · exact ⟨s, hmem2, h1, h2⟩

theorem processOverlays_none_iff (env : PdfEnv) : ∀ (ovs : List (Nat × String))
    (doc : PdfDoc),
    (processOverlays env doc ovs = none ↔
      ∃ ov ∈ ovs, sigOutOfBounds (ov.1 : Int) doc.pages.length = false ∧
        env.embedPng (stripDataUrl ov.2) = none)
  | [], doc => by simp [processOverlays]
  | (p, im) :: rest, doc => by
    have ih := processOverlays_none_iff env rest doc
    unfold processOverlays
    by_cases hb : sigOutOfBounds (p : Int) doc.pages.length = true
    · rw [if_pos hb]
      rw [ih]
      constructor
      · rintro ⟨s, hmem, h1, h2⟩
        exact ⟨s, List.mem_cons_of_mem _ hmem, h1, h2⟩
      · rintro ⟨s, hmem, h1, h2⟩
        rcases List.mem_cons.mp hmem with rfl | hmem2
        · rw [hb] at h1
          cases h1
        · exact ⟨s, hmem2, h1, h2⟩
    · have hb2 : sigOutOfBounds (p : Int) doc.pages.length = false := by simpa using hb
      rw [if_neg hb]
      cases hemb : env.embedPng (stripDataUrl im) with
      | none =>
        simp only [hemb]
        constructor
        · intro _
          exact ⟨(p, im), List.mem_cons_self _ _, hb2, hemb⟩
        · intro _
          trivial
      | some img =>
        simp only [hemb]
        have ihd := processOverlays_none_iff env rest
          (drawOnPage doc ((p : Int) - 1).toNat
            { image := img
              x := 0
              y := 0
              w := (doc.pages.getD ((p : Int) - 1).toNat defaultPage).width
              h := (doc.pages.getD ((p : Int) - 1).toNat defaultPage).height })
        rw [ihd]
        simp only [drawOnPage_length]
        constructor
        · rintro ⟨s, hmem, h1, h2⟩
          exact ⟨s, List.mem_cons_of_mem _ hmem, h1, h2⟩
        · rintro ⟨s, hmem, h1, h2⟩
          rcases List.mem_cons.mp hmem with rfl | hmem2
          · rw [hemb] at h2
            cases h2
          · exact ⟨s, hmem2, h1, h2⟩

/-! ## Concrete signer fixtures -/

/-- A one-page document (US-Letter media box). -/
def onePageDoc : PdfDoc := { pages := [{ width := 612, height := 792, ops := [] }] }

/-- A concrete environment: bytes `[1]` load as `onePageDoc`, every PNG
embeds as handle `"img"`, saving returns `[2]`. -/
def testEnv : PdfEnv where
  load := fun b => if b = [1] then some onePageDoc else none
  embedPng := fun _ => some "img"
  save := fun _ => [2]
  now := 7

/-- A placement on (non-existent) page 2. -/
def sigOnPage2 : SignatureData where
  imageBase64 := "payload"
  position := { page := 2, x := 10, y := 20, width := 100, height := 50 }
  createdAt := 0

/-- A placement on page 1. -/
def sigOnPage1 : SignatureData where
  imageBase64 := "payload"
  position := { page := 1, x := 1, y := 2, width := 3, height := 4 }
  createdAt := 0

/-! ## Claim C5 -/

/-- C5 counterexample: the claim says an out-of-range overlay is "skipped
with a warning".  The overlay loop's bounds check is a bare `continue`
(line 102) with no `console.warn`, so signing a 1-page PDF with only an
overlay for page 2 succeeds with an empty warning list (while the claim
requires at least one warning). -/
theorem c5_overlay_skipped_without_warning :
    (signRun testEnv [1] [] [(2, "payload")]).map (fun r => r.2) = some [] ∧
    sign testEnv [1] [] [(2, "payload")] = .success [2] := by
  constructor
  · rfl
  · rfl

/-- C5 amended: placements whose 1-indexed page is out of range are skipped
with a warning, and out-of-range overlays are skipped silently; neither
aborts the operation.  With only out-of-range placements and overlays the
call succeeds and the document is unchanged except for the signed-metadata
fields. -/
theorem c5_amended_out_of_range_skipped (env : PdfEnv) (bytes : List Nat)
    (sigs : List SignatureData) (ovs : List (Nat × String)) (doc : PdfDoc)
    (hload : env.load bytes = some doc)
    (hsigs : ∀ sig ∈ sigs, sigOutOfBounds sig.position.page doc.pages.length = true)
    (hovs : ∀ ov ∈ ovs, sigOutOfBounds (ov.1 : Int) doc.pages.length = true) :
    signRun env bytes sigs ovs =
      some (setSignedMetadata env doc,
        sigs.map fun sig => skippedPageWarning sig.position.page) ∧
    sign env bytes sigs ovs = .success (env.save (setSignedMetadata env doc)) ∧
    (setSignedMetadata env doc).pages = doc.pages := by
  have h1 := processSignatures_skip_all env sigs doc hsigs
  have h2 := processOverlays_skip_all env ovs doc hovs
  have hrun : signRun env bytes sigs ovs =
      some (setSignedMetadata env doc,
        sigs.map fun sig => skippedPageWarning sig.position.page) := by
    unfold signRun
    simp only [hload, h1, h2]
  refine ⟨hrun, ?_, by simp [setSignedMetadata]⟩
  unfold sign
  simp only [hrun]

/-- Witness for `c5_amended_out_of_range_skipped`: a 1-page PDF, one
placement on page 2 and one overlay on page 3. -/
theorem c5_amended_witness :
    signRun testEnv [1] [sigOnPage2] [(3, "p")] =
      some (setSignedMetadata testEnv onePageDoc,
        [sigOnPage2].map fun sig => skippedPageWarning sig.position.page) ∧
    sign testEnv [1] [sigOnPage2] [(3, "p")] =
      .success (testEnv.save (setSignedMetadata testEnv onePageDoc)) ∧
    (setSignedMetadata testEnv onePageDoc).pages = onePageDoc.pages :=
  c5_amended_out_of_range_skipped testEnv [1] [sigOnPage2] [(3, "p")] onePageDoc rfl
    (by
      intro sig hmem
      rw [List.mem_singleton] at hmem
      subst hmem
      decide)
    (by
      intro ov hmem
      rw [List.mem_singleton] at hmem
      subst hmem
      decide)

/-! ## Claim C6 -/

/-- C6: `sign` fails exactly when the bytes do not load as a PDF or when
the PNG of some placement or overlay on an in-range page fails to embed;
out-of-range references alone never cause failure, and the `failure`
result carries no bytes (no partial output). -/
theorem c6_failure_characterization (env : PdfEnv) (bytes : List Nat)
    (sigs : List SignatureData) (ovs : List (Nat × String)) :
    sign env bytes sigs ovs = .failure ↔
      env.load bytes = none ∨
      ∃ doc, env.load bytes = some doc ∧
        ((∃ sig ∈ sigs, sigOutOfBounds sig.position.page doc.pages.length = false ∧
            env.embedPng (stripDataUrl sig.imageBase64) = none) ∨
         (∃ ov ∈ ovs, sigOutOfBounds (ov.1 : Int) doc.pages.length = false ∧
            env.embedPng (stripDataUrl ov.2) = none)) := by
  have hsf : (sign env bytes sigs ovs = .failure) ↔ signRun env bytes sigs ovs = none := by
    unfold sign
    cases h : signRun env bytes sigs ovs with
    | none => simp
    | some dw =>
      obtain ⟨d, w⟩ := dw
      simp
  rw [hsf]
  unfold signRun
  cases hload : env.load bytes with
  | none => simp
  | some doc =>
    simp only [Option.some.injEq, reduceCtorEq, false_or]
    cases hps : processSignatures env doc sigs with
    | none =>
      have hex := (processSignatures_none_iff env sigs doc).mp hps
      simp only [hps]
      constructor
      · intro _
        exact ⟨doc, rfl, Or.inl hex⟩
      · intro _
        trivial
    | some dw =>
      obtain ⟨d1, warns⟩ := dw
      simp only [hps]
      have hlen := processSignatures_length env sigs doc d1 warns hps
      have hnos : ¬ ∃ sig ∈ sigs,
          sigOutOfBounds sig.position.page doc.pages.length = false ∧
          env.embedPng (stripDataUrl sig.imageBase64) = none := by
        intro hex
        rw [(processSignatures_none_iff env sigs doc).mpr hex] at hps
        cases hps
      cases hpo : processOverlays env d1 ovs with
      | none =>
        simp only [hpo]
        have hex := (processOverlays_none_iff env ovs d1).mp hpo
        rw [hlen] at hex
        constructor
        · intro _
          exact ⟨doc, rfl, Or.inr hex⟩
        · intro _
          trivial
      | some d2 =>
        simp only [hpo]
        have hnoo : ¬ ∃ ov ∈ ovs, sigOutOfBounds (ov.1 : Int) doc.pages.length = false ∧
            env.embedPng (stripDataUrl ov.2) = none := by
          intro hex
          rw [← hlen] at hex
          rw [(processOverlays_none_iff env ovs d1).mpr hex] at hpo
          cases hpo
        constructor
        · intro h
          cases h
        · rintro ⟨doc2, rfl, h | h⟩
          · exact absurd h hnos
          · exact absurd h hnoo

/-! ## Claim C7 -/

/-- C7: every successful sign run sets the signed-document metadata (title
`Signed Document`, producer `SignFlow PDF Signer`, modification date) and
preserves the page count of the loaded document. -/
theorem c7_signed_metadata (env : PdfEnv) (bytes : List Nat)
    (sigs : List SignatureData) (ovs : List (Nat × String)) (doc d : PdfDoc)
    (w : List String) (hload : env.load bytes = some doc)
    (hrun : signRun env bytes sigs ovs = some (d, w)) :
    d.title = some "Signed Document" ∧ d.producer = some "SignFlow PDF Signer" ∧
    d.modDate = some env.now ∧ d.pages.length = doc.pages.length := by
  unfold signRun at hrun
  simp only [hload] at hrun
  cases hps : processSignatures env doc sigs with
  | none =>
    simp only [hps] at hrun
    exact absurd hrun (by simp)
  | some dw =>
    obtain ⟨d1, warns⟩ := dw
    simp only [hps] at hrun
    cases hpo : processOverlays env d1 ovs with
    | none =>
      simp only [hpo] at hrun
      exact absurd hrun (by simp)
    | some d2 =>
      simp only [hpo] at hrun
      simp only [Option.some.injEq, Prod.mk.injEq] at hrun
      obtain ⟨hd, hw⟩ := hrun
      subst hd
      have l1 := processSignatures_length env sigs doc d1 warns hps
      have l2 := processOverlays_length env ovs d1 d2 hpo
      refine ⟨rfl, rfl, rfl, ?_⟩
      simp only [setSignedMetadata]
      rw [l2, l1]

/-- Witness for `c7_signed_metadata`: one in-range placement on a one-page
document. -/
theorem c7_signed_metadata_witness :
    (setSignedMetadata testEnv (drawOnPage onePageDoc 0 ⟨"img", 1, 2, 3, 4⟩)).title =
        some "Signed Document" ∧
    (setSignedMetadata testEnv (drawOnPage onePageDoc 0 ⟨"img", 1, 2, 3, 4⟩)).producer =
        some "SignFlow PDF Signer" ∧
    (setSignedMetadata testEnv (drawOnPage onePageDoc 0 ⟨"img", 1, 2, 3, 4⟩)).modDate =
        some testEnv.now ∧
    (setSignedMetadata testEnv (drawOnPage onePageDoc 0 ⟨"img", 1, 2, 3, 4⟩)).pages.length =
        onePageDoc.pages.length :=
  c7_signed_metadata testEnv [1] [sigOnPage1] [] onePageDoc _ [] rfl rfl

/-! ## PDF generator  (src/lib/services/pdf-generator.ts)

`generate` converts HTML to PDF with a headless browser (Playwright).  The
browser is modelled by a `RenderEnv` whose `renderPdf` stands for the
`page.setContent` + `page.pdf` pair: it receives the full document string
passed to `setContent` and the parameters passed to `page.pdf`, and returns
the produced bytes.  Browser launch/teardown and engine failures are
outside the modelled claims. -/

/-- The part of the `buildHtmlDocument` template literal before `${html}`
(lines 39-106), copied verbatim. -/
def htmlShellPre : String := "\n<!DOCTYPE html>\n<html>\n    <head>\n        <style>\n            @page \x7b\n                size: A4 portrait;\n                margin: 20mm;\n            \x7d\n            html, body \x7b\n                margin: 0;\n                padding: 0;\n                font-family: Arial, Helvetica, sans-serif;\n                font-size: 12pt;\n                line-height: 1.5;\n                background: white;\n            \x7d\n            \n            .document-container \x7b\n                width: 100%;\n                /* Ensure content respects the print area */\n            \x7d\n            \n            /* Typography */\n            h1, h2, h3, h4, h5, h6 \x7b\n                page-break-after: avoid;\n                break-after: avoid;\n                margin-top: 1.5em;\n                margin-bottom: 0.5em;\n            \x7d\n            p \x7b\n                margin-bottom: 1em;\n                orphans: 3;\n                widows: 3;\n            \x7d\n            \n            /* Tables */\n            table \x7b\n                width: 100%;\n                border-collapse: collapse;\n                margin-bottom: 1em;\n            \x7d\n            td, th \x7b\n                border: 1px solid #ddd;\n                padding: 8px;\n                text-align: left;\n            \x7d\n            tr \x7b\n                page-break-inside: avoid;\n                break-inside: avoid;\n            \x7d\n\n            /* Images */\n            img \x7b\n                max-width: 100%;\n                height: auto;\n                page-break-inside: avoid;\n            \x7d\n\n            /* Utilities */\n            .page-break \x7b\n                page-break-before: always;\n            \x7d\n        </style>\n    </head>\n    <body>\n        <div class=\"document-container\">\n            "

/-- The part of the `buildHtmlDocument` template literal after `${html}`
(lines 106-110), copied verbatim. -/
def htmlShellSuf : String := "\n        </div>\n    </body>\n</html>\n"

/-- `buildHtmlDocument` (lines 38-111): wrap the fragment in the fixed
document shell.  Note the function takes no options: the `@page` rule in
the shell is the literal `size: A4 portrait; margin: 20mm`. -/
def buildHtmlDocument (html : String) : String :=
  htmlShellPre ++ html ++ htmlShellSuf

structure PdfMargins where
  top : Int
  right : Int
  bottom : Int
  left : Int
deriving DecidableEq, Repr

/-- `PdfGenerationOptions` (src/lib/types/document.ts lines 115-127); the
format strings are lowercase `a4 | letter | legal`, margins are in
millimeters (modelled as integers). -/
structure PdfGenerationOptions where
  format : Option String := none
  orientation : Option String := none
  margins : Option PdfMargins := none
deriving DecidableEq, Repr

/-- `format.charAt(0).toUpperCase() + format.slice(1)`. -/
def capitalizeFirst (s : String) : String :=
  match s.data with
  | [] => ""
  | c :: rest => ⟨c.toUpper :: rest⟩

/-- `DEFAULT_MARGINS` (line 16). -/
def DEFAULT_MARGINS : PdfMargins := { top := 20, right := 20, bottom := 20, left := 20 }

/-- The parameters handed to the engine's `page.pdf` call (lines 163-173):
capitalized format (default `A4`), landscape flag, and the four margin
strings interpolated with an `mm` suffix. -/
structure PdfParams where
  format : String
  landscape : Bool
  marginTop : String
  marginRight : String
  marginBottom : String
  marginLeft : String
deriving DecidableEq, Repr

/-- Lines 134-138 and 163-173: how `generate` encodes its options into the
`page.pdf` parameters. -/
def pdfParamsOf (options : Option PdfGenerationOptions) : PdfParams :=
  let format :=
    match options.bind (fun o => o.format) with
    | some f => capitalizeFirst f
    | none => "A4"
  let landscape := options.bind (fun o => o.orientation) == some "landscape"
  let margins := (options.bind (fun o => o.margins)).getD DEFAULT_MARGINS
  { format := format
    landscape := landscape
    marginTop := toString margins.top ++ "mm"
    marginRight := toString margins.right ++ "mm"
    marginBottom := toString margins.bottom ++ "mm"
    marginLeft := toString margins.left ++ "mm" }

/-- The abstract rendering engine: `setContent` + `page.pdf`. -/
structure RenderEnv where
  renderPdf : String → PdfParams → List Nat

inductive GeneratePdfResult where
  | success (pdfBuffer : List Nat)
  | failure
deriving DecidableEq, Repr

/-- `generate` (src/lib/services/pdf-generator.ts lines 133-190): compute
the pdf parameters from the options, sanitize the incoming HTML with the
non-strict Sanitizer (lines 151-154), wrap it in the document shell and
hand both to the engine. -/
def generate (P : Purifier) (env : RenderEnv) (html : String)
    (options : Option PdfGenerationOptions) : GeneratePdfResult :=
  let safeHtml := sanitizeOutput P html
  let validHtml := buildHtmlDocument safeHtml
  .success (env.renderPdf validHtml (pdfParamsOf options))

/-! ## Claims C8 and C9 -/

/-- Model of the configured DOMPurify run on `<script>x</script>`: the
`script` element is not in `ALLOWED_TAGS` and is force-removed together
with its text content (DOMPurify never keeps the content of removed
`script`/`style` nodes), pushing `{ element: node }` onto `removed`. -/
def scriptPurifier : Purifier where
  run s :=
    if s = "<script>x</script>" then ("", [{ element := some "script" }])
    else (s, [])

/-- An engine that returns the length of the content it was given — enough
to observe which document string reached `setContent`. -/
def lenRenderEnv : RenderEnv where
  renderPdf := fun content _ => [content.length]

/-- An engine that returns the content itself, byte for byte. -/
def contentRenderEnv : RenderEnv where
  renderPdf := fun content _ => content.data.map Char.toNat

/-- Letter format, landscape, 5mm margins. -/
def letterLandscapeOpts : PdfGenerationOptions where
  format := some "letter"
  orientation := some "landscape"
  margins := some { top := 5, right := 5, bottom := 5, left := 5 }

/-- C8 counterexample: the claim states the Renderer passes the caller's
HTML to the engine without invoking the Sanitizer.  `generate` calls
`sanitizeHtml` on its input (pdf-generator.ts lines 151-154) before
wrapping it, so for `<script>x</script>` the engine receives the shell
around the sanitized (empty) fragment, not the shell around the caller's
HTML. -/
theorem c8_renderer_does_sanitize_counterexample :
    generate scriptPurifier lenRenderEnv "<script>x</script>" none ≠
      .success (lenRenderEnv.renderPdf
        (buildHtmlDocument "<script>x</script>") (pdfParamsOf none)) := by
  have h1 : sanitizeOutput scriptPurifier "<script>x</script>" = "" := by decide
  intro h
  simp only [generate, lenRenderEnv, h1, buildHtmlDocument,
    GeneratePdfResult.success.injEq, List.cons.injEq] at h
  obtain ⟨hlen, -⟩ := h
  rw [String.length_append, String.length_append, String.length_append,
    String.length_append] at hlen
  have h17 : "<script>x</script>".length = 18 := by decide
  have h0 : "".length = 0 := rfl
  rw [h17, h0] at hlen
  omega

/-- C8 amended: the Renderer re-sanitizes.  For every purifier, engine,
input and options, `generate` hands the engine the document shell built
around the output of the non-strict Sanitizer on the caller's HTML (and
that Sanitizer run is the non-throwing `sanitizeHtml` call). -/
theorem c8_amended_renderer_sanitizes (P : Purifier) (env : RenderEnv)
    (html : String) (options : Option PdfGenerationOptions) :
    generate P env html options =
      .success (env.renderPdf (buildHtmlDocument (sanitizeOutput P html))
        (pdfParamsOf options)) ∧
    sanitizeHtml P html {} = .ok (sanitizeOutput P html, sanitizeMessages P html) := by
  constructor
  · rfl
  · rw [sanitizeHtml_nonstrict_ok, sanitizeOutput_eq]

/-- An infix of a list is an infix of any right-extension. -/
theorem isInfix_append_right {α : Type} {pat a : List α} (h : pat <:+: a)
    (b : List α) : pat <:+: a ++ b := by
  obtain ⟨s, t, hst⟩ := h
  exact ⟨s, t ++ b, by rw [← hst]; simp⟩

/-- C9 counterexample: the claim states the document shell encodes the
caller's options as the `@page` rule rather than a fixed rule.  The
document handed to the engine is byte-identical for Letter/landscape/5mm
options and for no options, and the shell carries the fixed
`size: A4 portrait` / `margin: 20mm` rule; the requested format and
orientation surface only in the `page.pdf` parameters. -/
theorem c9_fixed_page_rule_counterexample :
    generate idPurifier contentRenderEnv "<p>Hi</p>" (some letterLandscapeOpts) =
      generate idPurifier contentRenderEnv "<p>Hi</p>" none ∧
    ("size: A4 portrait".data <:+: (buildHtmlDocument "<p>Hi</p>").data) ∧
    ("margin: 20mm".data <:+: (buildHtmlDocument "<p>Hi</p>").data) ∧
    (pdfParamsOf (some letterLandscapeOpts)).format = "Letter" ∧
    (pdfParamsOf (some letterLandscapeOpts)).landscape = true := by
  refine ⟨rfl, by decide, by decide, by decide, by decide⟩

/-- C9 amended: the shell wraps the sanitized fragment in a fixed print
stylesheet whose `@page` rule is the literal `size: A4 portrait` with
`margin: 20mm`, independent of the options; the caller's format,
orientation and margins are instead encoded into the engine's `page.pdf`
parameters (capitalized format defaulting to `A4`, a landscape flag, and
`mm`-suffixed margin strings defaulting to 20mm). -/
theorem c9_amended_fixed_shell_options_in_params (P : Purifier) (env : RenderEnv)
    (html : String) (options : Option PdfGenerationOptions) :
    generate P env html options =
      .success (env.renderPdf (buildHtmlDocument (sanitizeOutput P html))
        (pdfParamsOf options)) ∧
    ("size: A4 portrait".data <:+: (buildHtmlDocument (sanitizeOutput P html)).data) ∧
    ("margin: 20mm".data <:+: (buildHtmlDocument (sanitizeOutput P html)).data) ∧
    pdfParamsOf (some letterLandscapeOpts) =
      { format := "Letter"
        landscape := true
        marginTop := "5mm"
        marginRight := "5mm"
        marginBottom := "5mm"
        marginLeft := "5mm" } ∧
    pdfParamsOf none =
      { format := "A4"
        landscape := false
        marginTop := "20mm"
        marginRight := "20mm"
        marginBottom := "20mm"
        marginLeft := "20mm" } := by
  refine ⟨rfl, ?_, ?_, by decide, by decide⟩
  · have hpre : "size: A4 portrait".data <:+: htmlShellPre.data := by decide
    have : "size: A4 portrait".data <:+:
        htmlShellPre.data ++ ((sanitizeOutput P html).data ++ htmlShellSuf.data) := by
      simpa [List.append_assoc] using
        isInfix_append_right hpre ((sanitizeOutput P html).data ++ htmlShellSuf.data)
    simpa [buildHtmlDocument, String.data_append, List.append_assoc] using this
  · have hpre : "margin: 20mm".data <:+: htmlShellPre.data := by decide
    have : "margin: 20mm".data <:+:
        htmlShellPre.data ++ ((sanitizeOutput P html).data ++ htmlShellSuf.data) := by
      simpa [List.append_assoc] using
        isInfix_append_right hpre ((sanitizeOutput P html).data ++ htmlShellSuf.data)
    simpa [buildHtmlDocument, String.data_append, List.append_assoc] using this

/-! ## Document parser upload validation  (src/lib/services/document-parser.ts)

`validateFile` checks a candidate upload before parsing: extension, size
cap, non-emptiness, and (when the browser supplied one) the MIME type. -/

/-- `MAX_FILE_SIZE` (line 18): 10MB. -/
def MAX_FILE_SIZE : Nat := 10 * 1024 * 1024

/-- The sole allowed DOCX MIME type (lines 23-25). -/
def DOCX_MIME : String :=
  "application/vnd.openxmlformats-officedocument.wordprocessingml.document"

/-- `ALLOWED_MIME_TYPES` (lines 23-25). -/
def ALLOWED_MIME_TYPES : List String := [DOCX_MIME]

/-- The argument of `validateFile`: `{ name: string; size: number;
type?: string }`.  File sizes are non-negative, so `size` is a `Nat`;
`type` is `none` when the property is absent. -/
structure UploadFile where
  name : String
  size : Nat
  type : Option String := none
deriving DecidableEq, Repr

/-- `ParseErrorCode` (lines 63-69). -/
inductive ParseErrorCode where
  | INVALID_FILE_TYPE
  | FILE_TOO_LARGE
  | EMPTY_FILE
  | PARSE_FAILED
  | SANITIZATION_FAILED
  | UNKNOWN_ERROR
deriving DecidableEq, Repr

/-- `ParseError` (lines 74-78), without the optional `cause`. -/
structure ParseError where
  code : ParseErrorCode
  message : String
deriving DecidableEq, Repr

/-- JavaScript truthiness of `file.type` in `if (file.type && ...)`: an
absent property and the empty string are both falsy (the browser File API
reports an unknown MIME type as the empty string). -/
def jsTruthy : Option String → Bool
  | none => false
  | some t => !t.isEmpty

/-- `file.name.toLowerCase().endsWith('.docx')`, carried out on the
character list (ASCII lowercasing; the file names of interest are ASCII). -/
def lowerNameEndsWithDocx (name : String) : Bool :=
  ".docx".data.isSuffixOf (name.data.map Char.toLower)

/-- `validateFile` (src/lib/services/document-parser.ts lines 124-158):
extension check, size cap, emptiness check, then MIME check, returning the
error of the first failing check or `null`. -/
def validateFile (file : UploadFile) : Option ParseError :=
  if !lowerNameEndsWithDocx file.name then
    some { code := .INVALID_FILE_TYPE, message := "Only .docx files are supported" }
  else if file.size > MAX_FILE_SIZE then
    some { code := .FILE_TOO_LARGE,
           message := "File size must be less than " ++
             toString (MAX_FILE_SIZE / 1024 / 1024) ++ "MB" }
  else if file.size == 0 then
    some { code := .EMPTY_FILE, message := "File is empty" }
  else if jsTruthy file.type && !(ALLOWED_MIME_TYPES.contains (file.type.getD "")) then
    some { code := .INVALID_FILE_TYPE,
           message := "Invalid file type. Please upload a .docx file." }
  else
    none

/-! ## Claim C10 -/

/-- C10: `validateFile` accepts exactly the files whose lowercased name
ends in `.docx`, whose size is positive and at most 10485760 bytes, and
whose MIME type is absent (missing or empty, the File API's encoding of
an unknown type) or the DOCX MIME type; otherwise the returned error code
identifies the first failing check in source order: extension
(`INVALID_FILE_TYPE`), size cap (`FILE_TOO_LARGE`), emptiness
(`EMPTY_FILE`), MIME type (`INVALID_FILE_TYPE`). -/
theorem c10_validateFile_spec (f : UploadFile) :
    (validateFile f = none ↔
      (lowerNameEndsWithDocx f.name = true ∧ 0 < f.size ∧ f.size ≤ 10485760 ∧
        (jsTruthy f.type = false ∨ f.type = some DOCX_MIME))) ∧
    (lowerNameEndsWithDocx f.name = false →
      (validateFile f).map (fun e => e.code) = some .INVALID_FILE_TYPE) ∧
    (lowerNameEndsWithDocx f.name = true → 10485760 < f.size →
      (validateFile f).map (fun e => e.code) = some .FILE_TOO_LARGE) ∧
    (lowerNameEndsWithDocx f.name = true → f.size = 0 →
      (validateFile f).map (fun e => e.code) = some .EMPTY_FILE) ∧
    (lowerNameEndsWithDocx f.name = true → 0 < f.size → f.size ≤ 10485760 →
      jsTruthy f.type = true → f.type ≠ some DOCX_MIME →
      (validateFile f).map (fun e => e.code) = some .INVALID_FILE_TYPE) := by
  have hmax : MAX_FILE_SIZE = 10485760 := by decide
  have hmem : ∀ t : String, ALLOWED_MIME_TYPES.contains t = true ↔ t = DOCX_MIME := by
    intro t
    simp [ALLOWED_MIME_TYPES]
  have htruthy : ∀ o : Option String, jsTruthy o = true → o.getD "" = DOCX_MIME →
      o = some DOCX_MIME := by
    intro o ht hg
    cases o with
    | none => cases ht
    | some t => rw [Option.getD_some] at hg; rw [hg]
  refine ⟨?_, ?_, ?_, ?_, ?_⟩
  · by_cases hE : lowerNameEndsWithDocx f.name = true
    · by_cases hB : f.size > MAX_FILE_SIZE
      · have hval : validateFile f = some
            { code := .FILE_TOO_LARGE
              message := "File size must be less than " ++
                toString (MAX_FILE_SIZE / 1024 / 1024) ++ "MB" } := by
          simp [validateFile, hE, hB]
        rw [hval]
        constructor
        · intro h
          simp at h
        · rintro ⟨-, -, hle, -⟩
          exfalso
          rw [hmax] at hB
          omega
      · by_cases hZ : f.size = 0
        · have hval : validateFile f = some { code := .EMPTY_FILE, message := "File is empty" } := by
            simp [validateFile, hE, hB, hZ]
          rw [hval]
          constructor
          · intro h
            simp at h
          · rintro ⟨-, hpos, -⟩
            exfalso
            omega
        · by_cases hM : (jsTruthy f.type &&
              !(ALLOWED_MIME_TYPES.contains (f.type.getD ""))) = true
          · have hM2 := hM
            rw [Bool.and_eq_true, Bool.not_eq_true'] at hM2
            have hval : validateFile f = some
                { code := .INVALID_FILE_TYPE
                  message := "Invalid file type. Please upload a .docx file." } := by
              simp [validateFile, hE, hB, hZ]
              refine ⟨hM2.1, fun hin => ?_⟩
              simp [ALLOWED_MIME_TYPES] at hin
              have h2 := hM2.2
              rw [hin] at h2
              have h3 := (hmem DOCX_MIME).mpr rfl
              rw [h3] at h2
              cases h2
            rw [hval]
            have hM := hM2
            constructor
            · intro h
              simp at h
            · rintro ⟨-, -, -, hd | hd⟩
              · exfalso
                rw [hM.1] at hd
                cases hd
              · exfalso
                have hc : ALLOWED_MIME_TYPES.contains (f.type.getD "") = true := by
                  rw [hd, Option.getD_some, hmem]
                rw [hM.2] at hc
                cases hc
          · have hMf : (jsTruthy f.type &&
                !(ALLOWED_MIME_TYPES.contains (f.type.getD ""))) = false := by
              simpa using hM
            have hval : validateFile f = none := by
              simp [validateFile, hE, hB, hZ]
              intro ht
              rw [Bool.and_eq_false_iff] at hMf
              rcases hMf with h | h
              · rw [ht] at h
                cases h
              · rw [Bool.not_eq_false'] at h
                have hg := (hmem _).mp h
                simp [ALLOWED_MIME_TYPES, hg]
            rw [hval]
            constructor
            · intro _
              refine ⟨hE, by omega, by rw [hmax] at hB; omega, ?_⟩
              by_cases ht : jsTruthy f.type = true
              · have h2 : ALLOWED_MIME_TYPES.contains (f.type.getD "") = true := by
                  rw [Bool.and_eq_true] at hM
                  revert hM
                  cases ALLOWED_MIME_TYPES.contains (f.type.getD "") with
                  | true => intro _; rfl
                  | false => intro hM; exact absurd ⟨ht, rfl⟩ hM
                exact Or.inr (htruthy f.type ht ((hmem _).mp h2))
              · exact Or.inl (by simpa using ht)
            · intro _
              rfl
    · have hE2 : lowerNameEndsWithDocx f.name = false := by simpa using hE
      have hval : validateFile f = some
          { code := .INVALID_FILE_TYPE, message := "Only .docx files are supported" } := by
        simp [validateFile, hE2]
      rw [hval]
      constructor
      · intro h
        simp at h
      · rintro ⟨hEt, -⟩
        exfalso
        rw [hE2] at hEt
        cases hEt
  · intro hE2
    have hval : validateFile f = some
        { code := .INVALID_FILE_TYPE, message := "Only .docx files are supported" } := by
      simp [validateFile, hE2]
    rw [hval]
    rfl
  · intro hE hBig
    have hB : f.size > MAX_FILE_SIZE := by rw [hmax]; exact hBig
    have hval : validateFile f = some
        { code := .FILE_TOO_LARGE
          message := "File size must be less than " ++
            toString (MAX_FILE_SIZE / 1024 / 1024) ++ "MB" } := by
      simp [validateFile, hE, hB]
    rw [hval]
    rfl
  · intro hE hZ
    have hB : ¬ f.size > MAX_FILE_SIZE := by rw [hmax]; omega
    have hval : validateFile f = some { code := .EMPTY_FILE, message := "File is empty" } := by
      simp [validateFile, hE, hB, hZ]
    rw [hval]
    rfl
  · intro hE hpos hle ht hne
    have hB : ¬ f.size > MAX_FILE_SIZE := by rw [hmax]; omega
    have hZ : ¬ f.size = 0 := by omega
    have hc : ALLOWED_MIME_TYPES.contains (f.type.getD "") = false := by
      cases hcc : ALLOWED_MIME_TYPES.contains (f.type.getD "") with
      | false => rfl
      | true => exact absurd (htruthy f.type ht ((hmem _).mp hcc)) hne
    have hval : validateFile f = some
        { code := .INVALID_FILE_TYPE
          message := "Invalid file type. Please upload a .docx file." } := by
      simp [validateFile, hE, hB, hZ, ht]
      intro hin
      simp [ALLOWED_MIME_TYPES] at hin
      rw [hin] at hc
      have h3 := (hmem DOCX_MIME).mpr rfl
      rw [h3] at hc
      cases hc
    rw [hval]
    rfl

/-- Witness for `c10_validateFile_spec`: a valid upload is accepted and a
`.txt` upload is rejected with `INVALID_FILE_TYPE`. -/
theorem c10_validateFile_witness :
    validateFile { name := "Report.DOCX", size := 1024, type := some DOCX_MIME } = none ∧
    (validateFile { name := "notes.txt", size := 5, type := none }).map
      (fun e => e.code) = some .INVALID_FILE_TYPE :=
  ⟨(c10_validateFile_spec
      { name := "Report.DOCX", size := 1024, type := some DOCX_MIME }).1.mpr
      ⟨by decide, by decide, by decide, Or.inr rfl⟩,
    (c10_validateFile_spec { name := "notes.txt", size := 5, type := none }).2.1
      (by decide)⟩

end DocSigner
